import Mathlib

/-!
# go-jeebie: bit primitives, CPU register file, interrupt dispatch, cartridge header

A shallow embedding of `jeebie/bit/util.go`, `jeebie/cpu/cpu.go` and
`jeebie/memory/cartridge.go`.

Machine integers are natural numbers; every place where the Go code wraps
(`uint8`, `uint16`, `uint64` arithmetic and conversions) carries an explicit
`% 2^w`.  The CPU holds the only handle to the memory bus, so the bus is a
field of the CPU state and every method is a function from state to state.
-/

namespace Jeebie

/-! ## Package `bit` -/

namespace Bit

/-- CombineBytes combines two 8 bit values into a single 16 bit value:
`(uint16(high) << 8) | uint16(low)`. -/
def CombineBytes (low high : Nat) : Nat :=
  (((high % 65536) <<< 8) % 65536) ||| (low % 65536)

/-- CheckedAdd adds two 8 bit unsigned values and detects if an overflow happened.
The pair is `(result, overflow)`. -/
def CheckedAdd (a b : Nat) : Nat × Bool :=
  let highBits := ((a % 65536 + b % 65536) % 65536) &&& 0xFF00
  let overflow := if highBits > 0 then true else false
  ((a + b) % 256, overflow)

/-- CheckedSub subtracts two 8 bit unsigned values and detects if a borrow happened.
The pair is `(result, borrow)`; both subtractions wrap, the 16 bit one modulo
`65536` and the 8 bit one modulo `256`. -/
def CheckedSub (a b : Nat) : Nat × Bool :=
  let highBits := ((a % 65536 + 65536 - b % 65536) % 65536) &&& 0xFF00
  let borrow := if highBits > 0 then true else false
  ((a % 256 + 256 - b % 256) % 256, borrow)

/-- IsBitSet tests bit `index` of `byte`: `((byte >> index) & 1) == 1`. -/
def IsBitSet (index byte : Nat) : Bool :=
  (((byte % 256) >>> index) &&& 1) == 1

/-- Modelled from the spec: `bit.Combine` is called by `cpu.go` and
`cartridge.go` but the package source only has `CombineBytes`.  The spec's
`combine(low, high) -> u16` puts the high byte in bits 8–15, which is
`CombineBytes` under its shorter name. -/
def Combine (low high : Nat) : Nat :=
  CombineBytes low high

/-- Modelled from the spec: `bit.High` is not in the package source.  The spec's
`highByte` is the inverse of `combine`: bits 8–15 of a 16 bit value. -/
def High (value : Nat) : Nat :=
  ((value % 65536) >>> 8) % 256

/-- Modelled from the spec: `bit.Low` is not in the package source.  The spec's
`lowByte` is the inverse of `combine`: bits 0–7 of a 16 bit value. -/
def Low (value : Nat) : Nat :=
  (value % 65536) % 256

/-- Modelled from the spec: `bit.IsSet` is not in the package source.  The spec's
`isBitSet(index, value)` is the single-bit test, which is `IsBitSet`. -/
def IsSet (index byte : Nat) : Bool :=
  IsBitSet index byte

/-- Modelled from the spec: `bit.Clear` is not in the package source.  The spec's
`clearBit` clears bit `index` of an 8 bit value: `byte & ^(1 << index)`. -/
def Clear (index byte : Nat) : Nat :=
  (byte % 256) &&& (255 - (1 <<< index) % 256)

end Bit

/-! ## Package `memory`: the bus -/

/-- Modelled from the spec: the memory bus `memory.MMU` is not under src.  The
spec's bus is total over the 16 bit address range, and the interrupt-enable and
interrupt-flag registers are ordinary byte cells of its internal storage.  The
bus is a byte store indexed by address. -/
structure MMU where
  cells : Nat → Nat

namespace MMU

/-- Modelled from the spec: `read(addr: u16) -> u8`, total over the 16 bit range. -/
def Read (m : MMU) (addr : Nat) : Nat :=
  m.cells (addr % 65536) % 256

/-- Modelled from the spec: `write(addr: u16, value: u8)`, total over the 16 bit
range; the written cell holds the value, every other cell is untouched. -/
def Write (m : MMU) (addr value : Nat) : MMU :=
  { cells := fun x => if x = addr % 65536 then value % 256 else m.cells x }

end MMU

/-! ## Package `addr` -/

namespace Addr

/-- Modelled from the spec: package `addr` is not under src.  The
interrupt-enable register is the topmost byte of the address space. -/
def IE : Nat := 0xFFFF

/-- Modelled from the spec: package `addr` is not under src.  The interrupt-flag
register is a fixed address in the `0xFF00` page. -/
def IF : Nat := 0xFF0F

end Addr

/-! ## Package `cpu` -/

/-- Flag constant `zeroFlag`. -/
def zeroFlag : Nat := 0x80

/-- Flag constant `subFlag`. -/
def subFlag : Nat := 0x40

/-- Flag constant `halfCarryFlag`. -/
def halfCarryFlag : Nat := 0x20

/-- Flag constant `carryFlag`. -/
def carryFlag : Nat := 0x10

/-- Constant `baseInterruptAddress`. -/
def baseInterruptAddress : Nat := 0x40

/-- CPU is the main struct holding Z80 state. -/
structure CPU where
  a : Nat
  f : Nat
  b : Nat
  c : Nat
  d : Nat
  e : Nat
  h : Nat
  l : Nat
  sp : Nat
  pc : Nat
  interruptsEnabled : Bool
  currentOpcode : Nat
  stopped : Bool
  cycles : Nat
  memory : MMU

namespace CPU

/-- New returns an uninitialized CPU instance: every field but the bus has its
zero value. -/
def New (memory : MMU) : CPU :=
  { a := 0, f := 0, b := 0, c := 0, d := 0, e := 0, h := 0, l := 0,
    sp := 0, pc := 0, interruptsEnabled := false, currentOpcode := 0,
    stopped := false, cycles := 0, memory := memory }

/-- Modelled from the spec: `pushStack` is not under src.  The spec pushes a 16
bit value high byte then low byte, the stack pointer pre-decremented per
push. -/
def pushStack (cpu : CPU) (r : Nat) : CPU :=
  let sp1 := (cpu.sp + 65535) % 65536
  let m1 := cpu.memory.Write sp1 (Bit.High r)
  let sp2 := (sp1 + 65535) % 65536
  let m2 := m1.Write sp2 (Bit.Low r)
  { cpu with sp := sp2, memory := m2 }

/-- The body of the scan loop of `handleInterrupts` for a fired bit `i`
(lines 98–117): clear the bit in the flag register, push the program counter,
jump to the handler, add 20 cycles, disable interrupts. -/
def serviceInterrupt (cpu : CPU) (firedInterrupts i : Nat) : CPU :=
  let address := (((i % 256) % 65536) * 8 + baseInterruptAddress) % 65536
  let c1 := { cpu with memory := cpu.memory.Write Addr.IF (Bit.Clear i firedInterrupts) }
  let c2 := pushStack c1 c1.pc
  let c3 := { c2 with pc := address }
  let c4 := { c3 with cycles := (c3.cycles + 20) % 2 ^ 64 }
  { c4 with interruptsEnabled := false }

/-- The scan loop `for i := uint8(0); i < 5; i++` of `handleInterrupts`, with
`n` the number of iterations left and `i` the loop variable. -/
def handleInterruptsLoop (cpu : CPU) (firedInterrupts : Nat) : Nat → Nat → CPU
  | 0, _ => cpu
  | n + 1, i =>
    if Bit.IsSet i firedInterrupts then
      serviceInterrupt cpu firedInterrupts i
    else
      handleInterruptsLoop cpu firedInterrupts n (i + 1)

/-- The method handleInterrupts checks for an interrupt and handles it if necessary. -/
def handleInterrupts (cpu : CPU) : CPU :=
  if cpu.interruptsEnabled = false then
    cpu
  else
    let enabledInterruptsMask := cpu.memory.Read Addr.IE
    let firedInterrupts := cpu.memory.Read Addr.IF
    if (enabledInterruptsMask &&& firedInterrupts) = 0 then
      cpu
    else
      handleInterruptsLoop cpu firedInterrupts 5 0

/-- The method peekImmediate returns the byte at the memory address pointed by the PC. -/
def peekImmediate (cpu : CPU) : Nat :=
  cpu.memory.Read cpu.pc

/-- The method peekImmediateWord returns the two bytes at the memory address
pointed by PC and PC+1. -/
def peekImmediateWord (cpu : CPU) : Nat :=
  let low := cpu.memory.Read cpu.pc
  let high := cpu.memory.Read ((cpu.pc + 1) % 65536)
  Bit.Combine low high

/-- The conversion `int8(x)` of an 8 bit unsigned value. -/
def toInt8 (x : Nat) : Int :=
  if x % 256 < 128 then ((x % 256 : Nat) : Int) else ((x % 256 : Nat) : Int) - 256

/-- The method peekSignedImmediate returns the signed byte value at the memory
address pointed by PC. -/
def peekSignedImmediate (cpu : CPU) : Int :=
  toInt8 cpu.peekImmediate

/-- The method readImmediate acts as its peek counterpart, but increments the
PC once after reading. -/
def readImmediate (cpu : CPU) : Nat × CPU :=
  let n := cpu.peekImmediate
  (n, { cpu with pc := (cpu.pc + 1) % 65536 })

/-- The method readImmediateWord acts as its peek counterpart, but increments
the PC twice after reading. -/
def readImmediateWord (cpu : CPU) : Nat × CPU :=
  let nn := cpu.peekImmediateWord
  (nn, { cpu with pc := (cpu.pc + 2) % 65536 })

/-- The method readSignedImmediate acts as its peek counterpart, but increments
the PC once after reading. -/
def readSignedImmediate (cpu : CPU) : Int × CPU :=
  let n := cpu.peekSignedImmediate
  (n, { cpu with pc := (cpu.pc + 1) % 65536 })

/-- The method setFlag: `c.f &= uint8(flag)`. -/
def setFlag (cpu : CPU) (flag : Nat) : CPU :=
  { cpu with f := cpu.f &&& (flag % 256) }

/-- The method resetFlag: `c.f &= uint8(flag ^ 0xFF)`. -/
def resetFlag (cpu : CPU) (flag : Nat) : CPU :=
  { cpu with f := cpu.f &&& (((flag % 256) ^^^ 0xFF) % 256) }

/-- The method isSetFlag: `c.f&uint8(flag) != 0`. -/
def isSetFlag (cpu : CPU) (flag : Nat) : Bool :=
  (cpu.f &&& (flag % 256)) != 0

/-- The method flagToBit will return 1 if the passed flag is set, 0 otherwise. -/
def flagToBit (cpu : CPU) (flag : Nat) : Nat :=
  if cpu.isSetFlag flag then 1 else 0

/-- The method setFlagToCondition sets or resets the flag by the condition. -/
def setFlagToCondition (cpu : CPU) (flag : Nat) (condition : Bool) : CPU :=
  if condition then cpu.setFlag flag else cpu.resetFlag flag

/-- The method setBC. -/
def setBC (cpu : CPU) (value : Nat) : CPU :=
  { cpu with b := Bit.High value, c := Bit.Low value }

/-- The method getBC: `bit.Combine(c.b, c.c)`. -/
def getBC (cpu : CPU) : Nat :=
  Bit.Combine cpu.b cpu.c

/-- The method setDE. -/
def setDE (cpu : CPU) (value : Nat) : CPU :=
  { cpu with d := Bit.High value, e := Bit.Low value }

/-- The method getDE: `bit.Combine(c.d, c.d)`. -/
def getDE (cpu : CPU) : Nat :=
  Bit.Combine cpu.d cpu.d

/-- The method setHL. -/
def setHL (cpu : CPU) (value : Nat) : CPU :=
  { cpu with h := Bit.High value, l := Bit.Low value }

/-- The method getHL: `bit.Combine(c.h, c.l)`. -/
def getHL (cpu : CPU) : Nat :=
  Bit.Combine cpu.h cpu.l

/-- The method setAF. -/
def setAF (cpu : CPU) (value : Nat) : CPU :=
  { cpu with a := Bit.High value, f := Bit.Low value }

/-- The method getAF: `bit.Combine(c.a, c.f)`. -/
def getAF (cpu : CPU) : Nat :=
  Bit.Combine cpu.a cpu.f

end CPU

/-- An executable operation as returned by `Decode`: Go's `func(*CPU) int`,
a state change together with the cycle cost it reports. -/
abbrev Instruction := CPU → CPU × Int

/-- The second half of `Tick` (lines 74–78): decode at the current state, run
the decoded operation, add its cost to the cumulative counter and return the
cost.  `Decode` and the operations it returns are not under src: the decoder
is a parameter, any function that may change the CPU (it fetches) and picks an
operation. -/
def CPU.fetchExecute (Decode : CPU → Instruction × CPU) (cpu : CPU) : CPU × Int :=
  let decoded := Decode cpu
  let instruction := decoded.1
  let ran := instruction decoded.2
  let cycles := ran.2
  ({ ran.1 with cycles := (ran.1.cycles + (cycles % 2 ^ 64).toNat) % 2 ^ 64 }, cycles)

/-- Tick emulates a single step during the main loop for the cpu and returns
the amount of cycles that execution has taken: the interrupt check, then
decode, execute and accumulate, unconditionally. -/
def CPU.Tick (Decode : CPU → Instruction × CPU) (cpu : CPU) : CPU × Int :=
  CPU.fetchExecute Decode cpu.handleInterrupts

/-! ## Package `memory`: the cartridge -/

/-- Constant `titleLength`. -/
def titleLength : Nat := 11

/-- Constant `titleAddress`. -/
def titleAddress : Nat := 0x134

/-- Constant `cartridgeTypeAddress`. -/
def cartridgeTypeAddress : Nat := 0x147

/-- Constant `romSizeAddress`. -/
def romSizeAddress : Nat := 0x148

/-- Constant `ramSizeAddress`. -/
def ramSizeAddress : Nat := 0x149

/-- Constant `versionNumberAddress`. -/
def versionNumberAddress : Nat := 0x14C

/-- Constant `headerChecksumAddress`. -/
def headerChecksumAddress : Nat := 0x14D

/-- Constant `globalChecksumAddress`. -/
def globalChecksumAddress : Nat := 0x14E

/-- Cartridge holds the data and metadata of a gameboy cartridge.  The title
string is kept as its bytes. -/
structure Cartridge where
  data : List Nat
  title : List Nat
  headerChecksum : Nat
  globalChecksum : Nat
  version : Nat
  cartType : Nat
  romSize : Nat
  ramSize : Nat
deriving DecidableEq, Repr

/-- The slice expression `bytes[lo:hi]`, which panics (here: `none`) when the
bounds leave the buffer.  The buffer is a list, so its capacity is its length. -/
def sliceBytes (bytes : List Nat) (lo hi : Nat) : Option (List Nat) :=
  if lo ≤ hi ∧ hi ≤ bytes.length then some ((bytes.drop lo).take (hi - lo)) else none

/-- NewCartridge creates an empty cartridge, useful only for debugging purposes. -/
def NewCartridge : Cartridge :=
  { data := List.replicate 0x10000 0, title := [], headerChecksum := 0,
    globalChecksum := 0, version := 0, cartType := 0, romSize := 0, ramSize := 0 }

/-- NewCartridgeWithData initializes a new Cartridge from a slice of bytes.  An
index or slice bound outside the buffer is a run-time panic in Go: `none`. -/
def NewCartridgeWithData (bytes : List Nat) : Option Cartridge := do
  let titleBytes ← sliceBytes bytes titleAddress (titleAddress + titleLength)
  let h0 ← bytes[headerChecksumAddress]?
  let h1 ← bytes[headerChecksumAddress + 1]?
  let g0 ← bytes[globalChecksumAddress]?
  let g1 ← bytes[globalChecksumAddress + 1]?
  let version ← bytes[versionNumberAddress]?
  let cartType ← bytes[cartridgeTypeAddress]?
  let romSize ← bytes[romSizeAddress]?
  let ramSize ← bytes[ramSizeAddress]?
  pure
    { data := bytes
      title := titleBytes
      headerChecksum := Bit.Combine h0 h1
      globalChecksum := Bit.Combine g0 g1
      version := version
      cartType := cartType
      romSize := romSize
      ramSize := ramSize }

/-- The method Read reads a byte at the specified address.  It does not check
bounds: an address outside the data is a run-time panic in Go, here `none`. -/
def Cartridge.Read (c : Cartridge) (addr : Nat) : Option Nat :=
  c.data[addr % 65536]?

/-- The method Write attempts a write to the specified address: it returns the
byte stored there and leaves the receiver as it is. -/
def Cartridge.Write (c : Cartridge) (addr _value : Nat) : Option (Cartridge × Nat) :=
  (c.data[addr % 65536]?).map (fun v => (c, v))

/-- The error kinds a loader could hand back to its caller.  The spec names one,
`MalformedCartridge`; the Go code declares none. -/
inductive LoadError where
  | MalformedCartridge
deriving DecidableEq, Repr

/-- The ways a call of a Go function ends: it returns its result, it reports an
error value to its caller, or a run-time panic unwinds it. -/
inductive CallOutcome (α : Type) where
  | returned (a : α)
  | reported (err : LoadError)
  | panicked
deriving DecidableEq, Repr

/-- The way a call `NewCartridgeWithData(bytes)` ends.  The Go function has the
single result `*Cartridge` and no error result, and nothing in it or in its
caller `NewWithFile` recovers: it returns the cartridge, or the run-time panic
of an index or slice bound outside the buffer unwinds it. -/
def NewCartridgeWithDataCall (bytes : List Nat) : CallOutcome Cartridge :=
  match NewCartridgeWithData bytes with
  | some cart => CallOutcome.returned cart
  | none => CallOutcome.panicked

/-! ## Fixtures -/

/-- A bus whose every cell is zero. -/
def blankMemory : MMU :=
  { cells := fun _ => 0 }

/-- A CPU with interrupts globally enabled, the given enable and flag register
contents, stack pointer and program counter, everything else zero. -/
def interruptFixture (enable fired sp pc : Nat) : CPU :=
  { CPU.New ((blankMemory.Write Addr.IE enable).Write Addr.IF fired) with
    interruptsEnabled := true, sp := sp, pc := pc }

/-- A decoder in the shape of the one-byte, four-cycle no-operation: the fetch
advances the program counter by one, the operation changes nothing and
reports 4 cycles. -/
def nopDecode : CPU → Instruction × CPU :=
  fun cpu => (fun c => (c, 4), { cpu with pc := (cpu.pc + 1) % 65536 })

/-- A cartridge image of exactly `0x150` bytes, all zero except the bytes at
`0x14D`, `0x14E`, `0x14F`, which are 1, 2, 3. -/
def checksumImage : List Nat :=
  List.replicate 0x14D 0 ++ [1, 2, 3]

/-! ## Theorems -/

set_option maxRecDepth 100000 in
/-- Auxiliary: the high byte of a 16 bit sum of two bytes is non-zero exactly
when the sum leaves the 8 bit range. -/
theorem highBits_add_pos_iff (s : Nat) (hs : s < 511) :
    0 < (s % 65536) &&& 0xFF00 ↔ 255 < s := by
  revert s
  decide

set_option maxRecDepth 100000 in
/-- Auxiliary: the high byte of a 16 bit difference is zero when the
subtraction did not wrap. -/
theorem highBits_small (d : Nat) (hd : d < 256) : d &&& 0xFF00 = 0 := by
  revert d
  decide

set_option maxRecDepth 100000 in
/-- Auxiliary: the high byte of a 16 bit difference is non-zero when the
subtraction wrapped by less than 256. -/
theorem highBits_wrapped (k : Nat) (hk : k < 256) (hk0 : 0 < k) :
    0 < (65536 - k) &&& 0xFF00 := by
  revert k
  decide

/-- C1: for all 8-bit `a`, `b`, `CheckedAdd a b` returns the wraparound sum
`(a + b) mod 256`, and its overflow flag is true exactly when `a + b > 255`. -/
theorem checkedAdd_spec (a b : Nat) (ha : a < 256) (hb : b < 256) :
    (Bit.CheckedAdd a b).1 = (a + b) % 256 ∧
      ((Bit.CheckedAdd a b).2 = true ↔ 255 < a + b) := by
  refine ⟨rfl, ?_⟩
  have h := highBits_add_pos_iff (a + b) (by omega)
  have ha' : a % 65536 = a := Nat.mod_eq_of_lt (by omega)
  have hb' : b % 65536 = b := Nat.mod_eq_of_lt (by omega)
  simp only [Bit.CheckedAdd, ha', hb']
  by_cases hp : 0 < ((a + b) % 65536) &&& 0xFF00
  · simp only [gt_iff_lt, hp, if_true, true_iff]
    exact h.mp hp
  · simp only [gt_iff_lt, hp, if_false, Bool.false_eq_true, false_iff]
    exact fun hlt => hp (h.mpr hlt)

/-- Witness for C1 at `a = 200`, `b = 100`: the sum wraps to 44 and overflows. -/
theorem checkedAdd_spec_witness :
    200 < 256 ∧ 100 < 256 ∧ (Bit.CheckedAdd 200 100).1 = (200 + 100) % 256 ∧
      ((Bit.CheckedAdd 200 100).2 = true ↔ 255 < 200 + 100) :=
  ⟨by decide, by decide, checkedAdd_spec 200 100 (by decide) (by decide)⟩

/-- C2: for all 8-bit `a`, `b`, `CheckedSub a b` returns the wraparound
difference `(a - b) mod 256` (the mathematical difference reduced into
`0..255`), and its borrow flag is true exactly when `a < b`. -/
theorem checkedSub_spec (a b : Nat) (ha : a < 256) (hb : b < 256) :
    ((Bit.CheckedSub a b).1 : Int) = ((a : Int) - (b : Int)) % 256 ∧
      ((Bit.CheckedSub a b).2 = true ↔ a < b) := by
  have ha' : a % 65536 = a := Nat.mod_eq_of_lt (by omega)
  have hb' : b % 65536 = b := Nat.mod_eq_of_lt (by omega)
  have ha8 : a % 256 = a := Nat.mod_eq_of_lt ha
  have hb8 : b % 256 = b := Nat.mod_eq_of_lt hb
  constructor
  · simp only [Bit.CheckedSub, ha8, hb8]
    omega
  · simp only [Bit.CheckedSub, ha', hb']
    by_cases hlt : a < b
    · have hk := highBits_wrapped (b - a) (by omega) (by omega)
      have he : (a + 65536 - b) % 65536 = 65536 - (b - a) := by omega
      rw [he]
      simp only [gt_iff_lt, hk, if_true, true_iff]
      exact hlt
    · have hd := highBits_small (a - b) (by omega)
      have he : (a + 65536 - b) % 65536 = a - b := by omega
      rw [he, hd]
      simp only [gt_iff_lt, Nat.lt_irrefl, if_false, Bool.false_eq_true, false_iff]
      exact hlt

/-- Witness for C2 at `a = 3`, `b = 5`: the difference wraps to 254 and borrows. -/
theorem checkedSub_spec_witness :
    3 < 256 ∧ 5 < 256 ∧
      ((Bit.CheckedSub 3 5).1 : Int) = (((3 : Nat) : Int) - ((5 : Nat) : Int)) % 256 ∧
      ((Bit.CheckedSub 3 5).2 = true ↔ 3 < 5) :=
  ⟨by decide, by decide, checkedSub_spec 3 5 (by decide) (by decide)⟩


/-- Auxiliary: on bytes, `CombineBytes low high` is `256 * high + low`. -/
theorem combineBytes_eq (low high : Nat) (hl : low < 256) (hh : high < 256) :
    Bit.CombineBytes low high = 256 * high + low := by
  have h1 : high % 65536 = high := Nat.mod_eq_of_lt (by omega)
  have h2 : low % 65536 = low := Nat.mod_eq_of_lt (by omega)
  have h3 : (high <<< 8) % 65536 = 2 ^ 8 * high := by
    rw [Nat.shiftLeft_eq, Nat.mul_comm]
    exact Nat.mod_eq_of_lt (by omega)
  unfold Bit.CombineBytes
  rw [h1, h2, h3, ← Nat.mul_add_lt_is_or (by omega) high]

/-- Auxiliary: the modelled `High` of a 16 bit value is its quotient by 256. -/
theorem high_eq (v : Nat) (hv : v < 65536) : Bit.High v = v / 256 := by
  unfold Bit.High
  rw [Nat.mod_eq_of_lt hv, Nat.shiftRight_eq_div_pow]
  exact Nat.mod_eq_of_lt (by omega)

/-- Auxiliary: the modelled `Low` of a 16 bit value is its remainder by 256. -/
theorem low_eq (v : Nat) (hv : v < 65536) : Bit.Low v = v % 256 := by
  unfold Bit.Low
  rw [Nat.mod_eq_of_lt hv]

/-- Auxiliary: reading a pair back after writing it gives the written value
with its two bytes swapped for BC, HL and AF, and the high byte twice for
DE. -/
theorem registerPair_readback (cpu : CPU) (v : Nat) (hv : v < 65536) :
    (cpu.setBC v).getBC = 256 * (v % 256) + v / 256 ∧
      (cpu.setDE v).getDE = 256 * (v / 256) + v / 256 ∧
      (cpu.setHL v).getHL = 256 * (v % 256) + v / 256 ∧
      (cpu.setAF v).getAF = 256 * (v % 256) + v / 256 := by
  have hH : Bit.High v < 256 := by rw [high_eq v hv]; omega
  have hL : Bit.Low v < 256 := by rw [low_eq v hv]; omega
  have e1 : Bit.Combine (Bit.High v) (Bit.Low v) = 256 * (v % 256) + v / 256 := by
    rw [Bit.Combine, combineBytes_eq _ _ hH hL, high_eq v hv, low_eq v hv]
  have e2 : Bit.Combine (Bit.High v) (Bit.High v) = 256 * (v / 256) + v / 256 := by
    rw [Bit.Combine, combineBytes_eq _ _ hH hH, high_eq v hv]
  exact ⟨e1, e2, e1, e1⟩

/-- C3, evaluated at `v = 0x1234` on the zero CPU: reading DE back gives
`0x1212` (the high byte twice), and reading BC, HL and AF back gives `0x3412`
(the two bytes swapped); none of the four is the value written. -/
theorem registerPair_readback_at_0x1234 :
    ((CPU.New blankMemory).setDE 0x1234).getDE = 0x1212 ∧
      ((CPU.New blankMemory).setBC 0x1234).getBC = 0x3412 ∧
      ((CPU.New blankMemory).setHL 0x1234).getHL = 0x3412 ∧
      ((CPU.New blankMemory).setAF 0x1234).getAF = 0x3412 := by
  decide


/-! ### Interrupt dispatch -/

/-- Auxiliary: `IsBitSet` is the bit test of the byte. -/
theorem isBitSet_eq_testBit (i v : Nat) : Bit.IsBitSet i v = (v % 256).testBit i := by
  unfold Bit.IsBitSet
  rw [Nat.testBit_to_div_mod, Nat.shiftRight_eq_div_pow, Nat.and_one_is_mod]
  by_cases h : v % 256 / 2 ^ i % 2 = 1 <;> simp [h]

/-- Auxiliary: the scan loop services the lowest index in its range whose bit
is set in the flag register. -/
theorem handleInterruptsLoop_eq (cpu : CPU) (fired i : Nat) (hset : Bit.IsSet i fired = true) :
    ∀ n k : Nat, k ≤ i → i < k + n →
      (∀ j, k ≤ j → j < i → Bit.IsSet j fired = false) →
      CPU.handleInterruptsLoop cpu fired n k = CPU.serviceInterrupt cpu fired i := by
  intro n
  induction n with
  | zero => intro k hk hlt _; omega
  | succ n ih =>
    intro k hk hlt hmin
    by_cases hki : k = i
    · subst hki
      simp only [CPU.handleInterruptsLoop, hset, if_true]
    · have hk' : Bit.IsSet k fired = false := hmin k (Nat.le_refl k) (by omega)
      simp only [CPU.handleInterruptsLoop, hk', Bool.false_eq_true, if_false]
      exact ih (k + 1) (by omega) (by omega) (fun j hj hji => hmin j (by omega) hji)

/-- Auxiliary: with interrupts globally enabled and a non-zero AND of the two
registers, the check services the lowest index `i < 5` whose bit is set in the
flag register. -/
theorem handleInterrupts_eq_service (cpu : CPU) (i : Nat)
    (hIME : cpu.interruptsEnabled = true)
    (hand : (cpu.memory.Read Addr.IE &&& cpu.memory.Read Addr.IF) ≠ 0)
    (hi : i < 5) (hset : Bit.IsSet i (cpu.memory.Read Addr.IF) = true)
    (hmin : ∀ j, j < i → Bit.IsSet j (cpu.memory.Read Addr.IF) = false) :
    cpu.handleInterrupts = CPU.serviceInterrupt cpu (cpu.memory.Read Addr.IF) i := by
  unfold CPU.handleInterrupts
  simp only [hIME, Bool.true_eq_false, if_false, hand]
  exact handleInterruptsLoop_eq cpu _ i hset 5 0 (Nat.zero_le i) (by omega)
    (fun j _ hji => hmin j hji)

/-- Auxiliary: the registers a serviced interrupt leaves behind. -/
theorem serviceInterrupt_fields (cpu : CPU) (fired i : Nat) (hi : i < 5) :
    (CPU.serviceInterrupt cpu fired i).pc = 0x40 + 8 * i ∧
      (CPU.serviceInterrupt cpu fired i).interruptsEnabled = false ∧
      (CPU.serviceInterrupt cpu fired i).cycles = (cpu.cycles + 20) % 2 ^ 64 := by
  refine ⟨?_, ?_, ?_⟩
  rotate_left
  · simp only [CPU.serviceInterrupt, CPU.pushStack]
  · simp only [CPU.serviceInterrupt, CPU.pushStack]
  show (((i % 256) % 65536) * 8 + baseInterruptAddress) % 65536 = 0x40 + 8 * i
  unfold baseInterruptAddress
  omega

/-- Auxiliary: the flag register after a serviced interrupt, when neither stack
slot written by the push is the flag register. -/
theorem serviceInterrupt_flag (cpu : CPU) (fired i : Nat)
    (h1 : (cpu.sp + 65535) % 65536 ≠ Addr.IF)
    (h2 : (cpu.sp + 65534) % 65536 ≠ Addr.IF) :
    (CPU.serviceInterrupt cpu fired i).memory.Read Addr.IF = Bit.Clear i fired := by
  have h2' : ((cpu.sp + 65535) % 65536 + 65535) % 65536 ≠ Addr.IF := by
    have e : ((cpu.sp + 65535) % 65536 + 65535) % 65536 = (cpu.sp + 65534) % 65536 := by omega
    rw [e]; exact h2
  have hlt : Bit.Clear i fired < 256 := by
    unfold Bit.Clear
    exact Nat.lt_of_le_of_lt Nat.and_le_left (Nat.mod_lt _ (by decide))
  have hIF : Addr.IF % 65536 = Addr.IF := by unfold Addr.IF; rfl
  show (((cpu.memory.Write Addr.IF (Bit.Clear i fired)).Write ((cpu.sp + 65535) % 65536)
      (Bit.High cpu.pc)).Write (((cpu.sp + 65535) % 65536 + 65535) % 65536)
      (Bit.Low cpu.pc)).Read Addr.IF = Bit.Clear i fired
  simp only [MMU.Read, MMU.Write, hIF, Nat.mod_mod]
  rw [if_neg (Ne.symm h2'), if_neg (Ne.symm h1)]
  simp only [if_true, Nat.mod_mod]
  exact Nat.mod_eq_of_lt hlt


/-- C4, evaluated at enable register `0x02`, flag register `0x03`, interrupts
enabled: the only index set in both registers is 1, yet the check services
index 0, whose enable bit is clear: the program counter becomes `0x40` (not
`0x48`) and the flag register becomes `0x02` (not `0x01`). -/
theorem handleInterrupts_services_unenabled :
    Bit.IsSet 0 ((interruptFixture 0x02 0x03 0xFFFE 0x0100).memory.Read Addr.IE) = false ∧
      Bit.IsSet 1 ((interruptFixture 0x02 0x03 0xFFFE 0x0100).memory.Read Addr.IE) = true ∧
      Bit.IsSet 1 ((interruptFixture 0x02 0x03 0xFFFE 0x0100).memory.Read Addr.IF) = true ∧
      (interruptFixture 0x02 0x03 0xFFFE 0x0100).handleInterrupts.pc = 0x40 ∧
      (interruptFixture 0x02 0x03 0xFFFE 0x0100).handleInterrupts.memory.Read Addr.IF = 0x02 := by
  decide

/-- C5 fails at the Vertical-blank fixture with a four-cycle no-operation
decoder: the interrupt is serviced (the program counter reaches `0x40`), and
the same step still decodes and runs an operation (the program counter ends
at `0x41`) and returns its cost 4, not the dispatch cost 20. -/
theorem tick_continues_after_dispatch :
    (interruptFixture 0x01 0x01 0xFFFE 0x0100).handleInterrupts.pc = 0x40 ∧
      (interruptFixture 0x01 0x01 0xFFFE 0x0100).handleInterrupts.interruptsEnabled = false ∧
      (CPU.Tick nopDecode (interruptFixture 0x01 0x01 0xFFFE 0x0100)).1.pc = 0x41 ∧
      (CPU.Tick nopDecode (interruptFixture 0x01 0x01 0xFFFE 0x0100)).2 = 4 ∧
      (CPU.Tick nopDecode (interruptFixture 0x01 0x01 0xFFFE 0x0100)).2 ≠ 20 := by
  decide

/-- C6 fails when the stack sits on the flag register: with both registers
`0x01`, stack pointer `0xFF10` and program counter `0x1234`, the push of the
program counter stores its high byte at `0xFF0F`, so the flag register is
`0x12` after the check, not `0x00`. -/
theorem vblank_flag_overwritten_by_push :
    (interruptFixture 0x01 0x01 0xFF10 0x1234).interruptsEnabled = true ∧
      (interruptFixture 0x01 0x01 0xFF10 0x1234).memory.Read Addr.IE = 0x01 ∧
      (interruptFixture 0x01 0x01 0xFF10 0x1234).memory.Read Addr.IF = 0x01 ∧
      (interruptFixture 0x01 0x01 0xFF10 0x1234).handleInterrupts.memory.Read Addr.IF = 0x12 := by
  decide

/-- C7 fails when the stack sits on the flag register: with both registers
`0x03`, stack pointer `0xFF11` and program counter `0x0100`, the push of the
program counter stores its low byte `0x00` at `0xFF0F`, so bit 1 of the flag
register is clear after the check. -/
theorem second_interrupt_lost_by_push :
    (interruptFixture 0x03 0x03 0xFF11 0x0100).interruptsEnabled = true ∧
      Bit.IsSet 0 ((interruptFixture 0x03 0x03 0xFF11 0x0100).memory.Read Addr.IE) = true ∧
      Bit.IsSet 1 ((interruptFixture 0x03 0x03 0xFF11 0x0100).memory.Read Addr.IE) = true ∧
      Bit.IsSet 0 ((interruptFixture 0x03 0x03 0xFF11 0x0100).memory.Read Addr.IF) = true ∧
      Bit.IsSet 1 ((interruptFixture 0x03 0x03 0xFF11 0x0100).memory.Read Addr.IF) = true ∧
      Bit.IsSet 1
        ((interruptFixture 0x03 0x03 0xFF11 0x0100).handleInterrupts.memory.Read Addr.IF) =
        false := by
  decide


/-- C8: if interrupts are globally disabled, or the bitwise AND of the enable
register and the flag register is zero, the interrupt check changes nothing:
the whole CPU state, memory included, is the same after `handleInterrupts` as
before. -/
theorem handleInterrupts_unchanged (cpu : CPU)
    (h : cpu.interruptsEnabled = false ∨
      (cpu.memory.Read Addr.IE &&& cpu.memory.Read Addr.IF) = 0) :
    cpu.handleInterrupts = cpu := by
  unfold CPU.handleInterrupts
  by_cases hIME : cpu.interruptsEnabled = false
  · simp only [hIME, if_true]
  · rcases h with h | h
    · exact absurd h hIME
    · simp only [hIME, if_false, h, if_true, Bool.true_eq_false, ite_self]

/-- Witness for C8: interrupts enabled, enable register `0x02`, flag register
`0x01`: the AND is zero and the check leaves the state as it is. -/
theorem handleInterrupts_unchanged_witness :
    ((interruptFixture 0x02 0x01 0xFFFE 0x0100).interruptsEnabled = false ∨
        ((interruptFixture 0x02 0x01 0xFFFE 0x0100).memory.Read Addr.IE &&&
          (interruptFixture 0x02 0x01 0xFFFE 0x0100).memory.Read Addr.IF) = 0) ∧
      (interruptFixture 0x02 0x01 0xFFFE 0x0100).handleInterrupts =
        interruptFixture 0x02 0x01 0xFFFE 0x0100 :=
  ⟨Or.inr (by decide),
    handleInterrupts_unchanged (interruptFixture 0x02 0x01 0xFFFE 0x0100) (Or.inr (by decide))⟩


/-- Auxiliary: a byte read from the bus is below 256. -/
theorem read_lt (m : MMU) (a : Nat) : m.Read a < 256 :=
  Nat.mod_lt _ (by decide)

/-- Auxiliary: two bytes with a common set bit have a non-zero AND. -/
theorem and_ne_zero_of_isSet (i a b : Nat) (ha : a < 256) (hb : b < 256)
    (h1 : Bit.IsSet i a = true) (h2 : Bit.IsSet i b = true) : a &&& b ≠ 0 := by
  unfold Bit.IsSet at h1 h2
  rw [isBitSet_eq_testBit, Nat.mod_eq_of_lt ha] at h1
  rw [isBitSet_eq_testBit, Nat.mod_eq_of_lt hb] at h2
  intro h0
  have h := Nat.testBit_and a b i
  rw [h0, h1, h2, Nat.zero_testBit] at h
  exact absurd h (by decide)

/-- C5, amended: in a step in which the interrupt of index `i` is serviced,
the step does not end at the dispatch.  `Tick` is the dispatch followed by
decode, execute and accumulate on the post-dispatch state, whose program
counter is the vector `0x40 + 8*i`, whose interrupts are disabled and whose
cumulative counter already holds the dispatch cost 20; the value `Tick`
returns is the cost of the operation run there. -/
theorem tick_after_dispatch (Decode : CPU → Instruction × CPU) (cpu : CPU) (i : Nat)
    (hIME : cpu.interruptsEnabled = true)
    (hand : (cpu.memory.Read Addr.IE &&& cpu.memory.Read Addr.IF) ≠ 0)
    (hi : i < 5) (hset : Bit.IsSet i (cpu.memory.Read Addr.IF) = true)
    (hmin : ∀ j, j < i → Bit.IsSet j (cpu.memory.Read Addr.IF) = false) :
    cpu.handleInterrupts.pc = 0x40 + 8 * i ∧
      cpu.handleInterrupts.interruptsEnabled = false ∧
      cpu.handleInterrupts.cycles = (cpu.cycles + 20) % 2 ^ 64 ∧
      CPU.Tick Decode cpu = CPU.fetchExecute Decode cpu.handleInterrupts ∧
      (CPU.Tick Decode cpu).2 =
        ((Decode cpu.handleInterrupts).1 (Decode cpu.handleInterrupts).2).2 ∧
      (CPU.Tick Decode cpu).1.cycles =
        (((Decode cpu.handleInterrupts).1 (Decode cpu.handleInterrupts).2).1.cycles +
          (((Decode cpu.handleInterrupts).1 (Decode cpu.handleInterrupts).2).2 % 2 ^ 64).toNat)
          % 2 ^ 64 := by
  have hs := handleInterrupts_eq_service cpu i hIME hand hi hset hmin
  have hf := serviceInterrupt_fields cpu (cpu.memory.Read Addr.IF) i hi
  rw [← hs] at hf
  exact ⟨hf.1, hf.2.1, hf.2.2, rfl, rfl, rfl⟩

/-- Witness for the amended C5: the Vertical-blank fixture with the four-cycle
no-operation decoder. -/
theorem tick_after_dispatch_witness :
    (interruptFixture 0x01 0x01 0xFFFE 0x0100).handleInterrupts.pc = 0x40 + 8 * 0 ∧
      (CPU.Tick nopDecode (interruptFixture 0x01 0x01 0xFFFE 0x0100)).2 = 4 := by
  have h := tick_after_dispatch nopDecode (interruptFixture 0x01 0x01 0xFFFE 0x0100) 0
    (by decide) (by decide) (by decide) (by decide) (fun j hj => absurd hj (Nat.not_lt_zero j))
  exact ⟨h.1, h.2.2.2.2.1⟩

/-- C6, amended: with interrupts globally enabled, the enable register and the
flag register both `0x01`, and neither stack slot written by the push (at
`SP-1` and `SP-2` modulo `2^16`) being the flag register, the interrupt check
leaves the flag register `0x00`, sets the program counter to `0x0040`,
disables interrupts and adds 20 to the cumulative cycle counter. -/
theorem vblank_dispatch (cpu : CPU)
    (hIME : cpu.interruptsEnabled = true)
    (hIE : cpu.memory.Read Addr.IE = 0x01)
    (hIF : cpu.memory.Read Addr.IF = 0x01)
    (h1 : (cpu.sp + 65535) % 65536 ≠ Addr.IF)
    (h2 : (cpu.sp + 65534) % 65536 ≠ Addr.IF) :
    cpu.handleInterrupts.memory.Read Addr.IF = 0x00 ∧
      cpu.handleInterrupts.pc = 0x0040 ∧
      cpu.handleInterrupts.interruptsEnabled = false ∧
      cpu.handleInterrupts.cycles = (cpu.cycles + 20) % 2 ^ 64 := by
  have hs := handleInterrupts_eq_service cpu 0 hIME (by rw [hIE, hIF]; decide) (by decide)
    (by rw [hIF]; decide) (fun j hj => absurd hj (Nat.not_lt_zero j))
  have hf := serviceInterrupt_fields cpu (cpu.memory.Read Addr.IF) 0 (by decide)
  have hm := serviceInterrupt_flag cpu (cpu.memory.Read Addr.IF) 0 h1 h2
  rw [← hs] at hf hm
  refine ⟨?_, hf.1, hf.2.1, hf.2.2⟩
  rw [hm, hIF]
  decide

/-- Witness for the amended C6: the Vertical-blank fixture with the stack at
`0xFFFE`. -/
theorem vblank_dispatch_witness :
    (interruptFixture 0x01 0x01 0xFFFE 0x0100).handleInterrupts.memory.Read Addr.IF = 0x00 ∧
      (interruptFixture 0x01 0x01 0xFFFE 0x0100).handleInterrupts.pc = 0x0040 ∧
      (interruptFixture 0x01 0x01 0xFFFE 0x0100).handleInterrupts.interruptsEnabled = false ∧
      (interruptFixture 0x01 0x01 0xFFFE 0x0100).handleInterrupts.cycles =
        ((interruptFixture 0x01 0x01 0xFFFE 0x0100).cycles + 20) % 2 ^ 64 :=
  vblank_dispatch (interruptFixture 0x01 0x01 0xFFFE 0x0100)
    (by decide) (by decide) (by decide) (by decide) (by decide)


/-- Auxiliary: clearing bit 0 of a byte clears bit 0 and keeps bit 1. -/
theorem isSet_clear_zero (v : Nat) :
    Bit.IsSet 0 (Bit.Clear 0 v) = false ∧ Bit.IsSet 1 (Bit.Clear 0 v) = Bit.IsSet 1 v := by
  have hc : Bit.Clear 0 v = v % 256 &&& 254 := rfl
  have hlt : v % 256 &&& 254 < 256 :=
    Nat.lt_of_le_of_lt Nat.and_le_left (Nat.mod_lt _ (by decide))
  have t0 : Nat.testBit 254 0 = false := by decide
  have t1 : Nat.testBit 254 1 = true := by decide
  unfold Bit.IsSet
  rw [isBitSet_eq_testBit, isBitSet_eq_testBit, isBitSet_eq_testBit, hc,
    Nat.mod_eq_of_lt hlt, Nat.testBit_and, Nat.testBit_and, t0, t1]
  simp

/-- C7, amended: with interrupts globally enabled, bits 0 and 1 both set in the
enable register and in the flag register, and neither stack slot written by
the push (at `SP-1` and `SP-2` modulo `2^16`) being the flag register, the
interrupt check services bit 0 only: the program counter becomes `0x0040`,
bit 0 of the flag register is cleared and bit 1 is still set. -/
theorem lower_index_wins (cpu : CPU)
    (hIME : cpu.interruptsEnabled = true)
    (hE0 : Bit.IsSet 0 (cpu.memory.Read Addr.IE) = true)
    (hE1 : Bit.IsSet 1 (cpu.memory.Read Addr.IE) = true)
    (hF0 : Bit.IsSet 0 (cpu.memory.Read Addr.IF) = true)
    (hF1 : Bit.IsSet 1 (cpu.memory.Read Addr.IF) = true)
    (h1 : (cpu.sp + 65535) % 65536 ≠ Addr.IF)
    (h2 : (cpu.sp + 65534) % 65536 ≠ Addr.IF) :
    cpu.handleInterrupts.pc = 0x0040 ∧
      Bit.IsSet 0 (cpu.handleInterrupts.memory.Read Addr.IF) = false ∧
      Bit.IsSet 1 (cpu.handleInterrupts.memory.Read Addr.IF) = true := by
  have hand := and_ne_zero_of_isSet 0 _ _ (read_lt cpu.memory Addr.IE)
    (read_lt cpu.memory Addr.IF) hE0 hF0
  have hs := handleInterrupts_eq_service cpu 0 hIME hand (by decide) hF0
    (fun j hj => absurd hj (Nat.not_lt_zero j))
  have hf := serviceInterrupt_fields cpu (cpu.memory.Read Addr.IF) 0 (by decide)
  have hm := serviceInterrupt_flag cpu (cpu.memory.Read Addr.IF) 0 h1 h2
  have hc := isSet_clear_zero (cpu.memory.Read Addr.IF)
  rw [← hs] at hf hm
  rw [hm]
  exact ⟨hf.1, hc.1, hc.2.trans hF1⟩

/-- Witness for the amended C7: both registers `0x03`, the stack at `0xFFFE`. -/
theorem lower_index_wins_witness :
    (interruptFixture 0x03 0x03 0xFFFE 0x0100).handleInterrupts.pc = 0x0040 ∧
      Bit.IsSet 0
        ((interruptFixture 0x03 0x03 0xFFFE 0x0100).handleInterrupts.memory.Read Addr.IF) =
        false ∧
      Bit.IsSet 1
        ((interruptFixture 0x03 0x03 0xFFFE 0x0100).handleInterrupts.memory.Read Addr.IF) =
        true :=
  lower_index_wins (interruptFixture 0x03 0x03 0xFFFE 0x0100)
    (by decide) (by decide) (by decide) (by decide) (by decide) (by decide) (by decide)

/-! ### The flag register -/

/-- Auxiliary: masking a value whose low nibble is zero keeps the low nibble zero. -/
theorem and_low_nibble (f x : Nat) (h : f % 16 = 0) : (f &&& x) % 16 = 0 := by
  have e : ∀ y : Nat, y % 16 = y &&& 15 := fun y => (Nat.and_pow_two_sub_one_eq_mod y 4).symm
  rw [e] at h ⊢
  rw [Nat.and_assoc, Nat.and_comm x 15, ← Nat.and_assoc, h, Nat.zero_and]

/-- C9 fails for `setAF`: on the zero CPU, whose F register is `0x00`,
`setAF(0x0001)` leaves F equal to `0x01`, with a non-zero low nibble. -/
theorem setAF_breaks_low_nibble :
    (CPU.New blankMemory).f % 16 = 0 ∧ ((CPU.New blankMemory).setAF 0x0001).f % 16 = 1 := by
  decide

/-- C9, amended: starting from a CPU whose F register has low nibble zero,
`setFlag`, `resetFlag` and `setFlagToCondition` (with any flag, the four flag
constants included) leave the low four bits of F zero; `setAF` stores the low
byte of its argument in F as it is, so after `setAF(v)` the low nibble of F is
the low nibble of `v`, zero exactly when the low four bits of `v` are zero. -/
theorem flag_low_nibble (cpu : CPU) (flag v : Nat) (condition : Bool) (h : cpu.f % 16 = 0) :
    (cpu.setFlag flag).f % 16 = 0 ∧
      (cpu.resetFlag flag).f % 16 = 0 ∧
      (cpu.setFlagToCondition flag condition).f % 16 = 0 ∧
      (cpu.setAF v).f % 16 = v % 16 ∧
      ((cpu.setAF v).f % 16 = 0 ↔ v % 16 = 0) := by
  have hs : (cpu.setFlag flag).f % 16 = 0 := and_low_nibble cpu.f _ h
  have hr : (cpu.resetFlag flag).f % 16 = 0 := and_low_nibble cpu.f _ h
  have ha : (cpu.setAF v).f % 16 = v % 16 := by
    show Bit.Low v % 16 = v % 16
    unfold Bit.Low
    omega
  refine ⟨hs, hr, ?_, ha, by rw [ha]⟩
  cases condition
  · exact hr
  · exact hs

/-- Witness for the amended C9: the zero CPU, the carry flag, `v = 0x12F0`. -/
theorem flag_low_nibble_witness :
    (CPU.New blankMemory).f % 16 = 0 ∧
      ((CPU.New blankMemory).setFlag carryFlag).f % 16 = 0 ∧
      ((CPU.New blankMemory).setAF 0x12F0).f % 16 = 0 :=
  ⟨by decide,
    (flag_low_nibble (CPU.New blankMemory) carryFlag 0x12F0 true (by decide)).1,
    (flag_low_nibble (CPU.New blankMemory) carryFlag 0x12F0 true (by decide)).2.2.2.2.mpr
      (by decide)⟩


/-! ### The cartridge header -/

/-- Auxiliary: an index inside the buffer reads the byte there. -/
theorem getElem?_eq_getD (bytes : List Nat) (i : Nat) (h : i < bytes.length) :
    bytes[i]? = some (bytes.getD i 0) := by
  rw [List.getD_eq_getElem?_getD, List.getElem?_eq_getElem h]
  rfl

set_option maxRecDepth 100000 in
/-- C10 fails at the image of `0x150` bytes that is zero except for the bytes
1, 2, 3 at `0x14D`, `0x14E`, `0x14F`: the loaded header checksum is
`1 + 256*2 = 513`, not the big-endian `256*1 + 2 = 258`, and the global
checksum is `2 + 256*3 = 770`, not `256*2 + 3 = 515`. -/
theorem checksums_not_big_endian :
    checksumImage.length = 0x150 ∧
      (NewCartridgeWithData checksumImage).map (fun c => c.headerChecksum) = some 513 ∧
      (NewCartridgeWithData checksumImage).map (fun c => c.globalChecksum) = some 770 ∧
      256 * checksumImage.getD 0x14D 0 + checksumImage.getD 0x14E 0 = 258 ∧
      256 * checksumImage.getD 0x14E 0 + checksumImage.getD 0x14F 0 = 515 := by
  decide

/-- Auxiliary: an image of at least `0x150` bytes loads, and the loaded
cartridge holds the image and the header fields read at their offsets. -/
theorem newCartridgeWithData_eq (bytes : List Nat) (hlen : 0x150 ≤ bytes.length) :
    NewCartridgeWithData bytes = some
      { data := bytes
        title := (bytes.drop 0x134).take 11
        headerChecksum := Bit.Combine (bytes.getD 0x14D 0) (bytes.getD 0x14E 0)
        globalChecksum := Bit.Combine (bytes.getD 0x14E 0) (bytes.getD 0x14F 0)
        version := bytes.getD 0x14C 0
        cartType := bytes.getD 0x147 0
        romSize := bytes.getD 0x148 0
        ramSize := bytes.getD 0x149 0 } := by
  have hs : sliceBytes bytes titleAddress (titleAddress + titleLength) =
      some ((bytes.drop 0x134).take 11) := by
    unfold sliceBytes titleAddress titleLength
    rw [if_pos ⟨by omega, by omega⟩]
  have g : ∀ i, i < 0x150 → bytes[i]? = some (bytes.getD i 0) :=
    fun i hi => getElem?_eq_getD bytes i (by omega)
  unfold NewCartridgeWithData
  rw [hs]
  simp only [headerChecksumAddress, globalChecksumAddress, versionNumberAddress,
    cartridgeTypeAddress, romSizeAddress, ramSizeAddress]
  rw [g 0x14D (by decide), g (0x14D + 1) (by decide),
    g (0x14E + 1) (by decide), g 0x14C (by decide), g 0x147 (by decide),
    g 0x148 (by decide), g 0x149 (by decide)]
  rfl

/-- Auxiliary: reading a buffer of bytes at any index, with default 0, gives
a byte. -/
theorem getD_lt_of_bytes (bytes : List Nat) (hbyte : ∀ b ∈ bytes, b < 256) (i : Nat) :
    bytes.getD i 0 < 256 := by
  rw [List.getD_eq_getElem?_getD]
  by_cases hi : i < bytes.length
  · rw [List.getElem?_eq_getElem hi]
    exact hbyte _ (List.getElem_mem hi)
  · rw [List.getElem?_eq_none (Nat.le_of_not_lt hi)]
    decide

/-- C10, amended: the header checksum and the global checksum of a loaded
cartridge are little-endian compositions of their two bytes: every image of at
least `0x150` bytes loads, with `headerChecksum = bytes[0x14D] + 256*bytes[0x14E]`
and `globalChecksum = bytes[0x14E] + 256*bytes[0x14F]`. -/
theorem checksums_little_endian (bytes : List Nat) (hlen : 0x150 ≤ bytes.length)
    (hbyte : ∀ b ∈ bytes, b < 256) :
    ∃ cart, NewCartridgeWithData bytes = some cart ∧
      cart.headerChecksum = bytes.getD 0x14D 0 + 256 * bytes.getD 0x14E 0 ∧
      cart.globalChecksum = bytes.getD 0x14E 0 + 256 * bytes.getD 0x14F 0 := by
  have hb := getD_lt_of_bytes bytes hbyte
  refine ⟨_, newCartridgeWithData_eq bytes hlen, ?_, ?_⟩
  · show Bit.Combine _ _ = _
    rw [Bit.Combine, combineBytes_eq _ _ (hb _) (hb _)]
    omega
  · show Bit.Combine _ _ = _
    rw [Bit.Combine, combineBytes_eq _ _ (hb _) (hb _)]
    omega

set_option maxRecDepth 100000 in
/-- Witness for the amended C10: the image with 1, 2, 3 at `0x14D..0x14F`. -/
theorem checksums_little_endian_witness :
    0x150 ≤ checksumImage.length ∧ (∀ b ∈ checksumImage, b < 256) ∧
      ∃ cart, NewCartridgeWithData checksumImage = some cart ∧
        cart.headerChecksum = checksumImage.getD 0x14D 0 + 256 * checksumImage.getD 0x14E 0 ∧
        cart.globalChecksum = checksumImage.getD 0x14E 0 + 256 * checksumImage.getD 0x14F 0 :=
  ⟨by decide, by decide, checksums_little_endian checksumImage (by decide) (by decide)⟩


/-- Auxiliary: an image shorter than `0x150` bytes does not load: the read of
the byte at `0x14F` leaves the buffer. -/
theorem newCartridgeWithData_short (bytes : List Nat) (hlen : bytes.length < 0x150) :
    NewCartridgeWithData bytes = none := by
  have hn : bytes[globalChecksumAddress + 1]? = none :=
    List.getElem?_eq_none (by unfold globalChecksumAddress; omega)
  unfold NewCartridgeWithData
  simp only [Option.bind_eq_bind, Option.bind_eq_none, hn, Option.none_bind, implies_true]

/-- C11 fails at the empty image: the call ends in a run-time panic, it does
not report the error `MalformedCartridge` (and it returns no cartridge). -/
theorem short_image_panics :
    ([] : List Nat).length < 0x150 ∧
      NewCartridgeWithDataCall [] = CallOutcome.panicked ∧
      NewCartridgeWithDataCall [] ≠ CallOutcome.reported LoadError.MalformedCartridge := by
  decide

/-- C11, amended: loading an image shorter than `0x150` bytes ends in a
run-time panic on an index outside the buffer: no error value is reported and
no cartridge is returned; loading any image of at least `0x150` bytes returns
a cartridge. -/
theorem load_panics_iff_short (bytes : List Nat) :
    (bytes.length < 0x150 →
        NewCartridgeWithDataCall bytes = CallOutcome.panicked ∧
        (∀ err, NewCartridgeWithDataCall bytes ≠ CallOutcome.reported err) ∧
        (∀ cart, NewCartridgeWithDataCall bytes ≠ CallOutcome.returned cart)) ∧
      (0x150 ≤ bytes.length →
        ∃ cart, NewCartridgeWithDataCall bytes = CallOutcome.returned cart ∧
          NewCartridgeWithData bytes = some cart) := by
  constructor
  · intro h
    have hp : NewCartridgeWithDataCall bytes = CallOutcome.panicked := by
      unfold NewCartridgeWithDataCall
      rw [newCartridgeWithData_short bytes h]
    rw [hp]
    exact ⟨rfl, fun err he => (by cases he), fun cart he => (by cases he)⟩
  · intro h
    refine ⟨_, ?_, newCartridgeWithData_eq bytes h⟩
    unfold NewCartridgeWithDataCall
    rw [newCartridgeWithData_eq bytes h]

set_option maxRecDepth 100000 in
/-- Witness for the amended C11: the empty image panics, the `0x150` byte
fixture returns a cartridge. -/
theorem load_panics_iff_short_witness :
    ([] : List Nat).length < 0x150 ∧
      NewCartridgeWithDataCall [] = CallOutcome.panicked ∧
      0x150 ≤ checksumImage.length ∧
      ∃ cart, NewCartridgeWithDataCall checksumImage = CallOutcome.returned cart ∧
        NewCartridgeWithData checksumImage = some cart :=
  ⟨by decide, ((load_panics_iff_short []).1 (by decide)).1, by decide,
    (load_panics_iff_short checksumImage).2 (by decide)⟩

/-- Auxiliary: the `k`-th byte of the title window of a buffer. -/
theorem title_getD (bytes : List Nat) (k : Nat) (hk : k < 11) :
    ((bytes.drop 0x134).take 11).getD k 0 = bytes.getD (0x134 + k) 0 := by
  rw [List.getD_eq_getElem?_getD, List.getD_eq_getElem?_getD, List.getElem?_take_of_lt hk,
    List.getElem?_drop]

/-- C12: for every image of at least `0x150` bytes the loaded header fields are
read from the fixed offsets: the title is the 11 bytes `bytes[0x134..0x13E]` in
order, `cartType = bytes[0x147]`, `romSize = bytes[0x148]`,
`ramSize = bytes[0x149]` and `version = bytes[0x14C]`. -/
theorem header_fields_at_offsets (bytes : List Nat) (hlen : 0x150 ≤ bytes.length) :
    ∃ cart, NewCartridgeWithData bytes = some cart ∧
      cart.title.length = 11 ∧
      (∀ k, k < 11 → cart.title.getD k 0 = bytes.getD (0x134 + k) 0) ∧
      cart.cartType = bytes.getD 0x147 0 ∧
      cart.romSize = bytes.getD 0x148 0 ∧
      cart.ramSize = bytes.getD 0x149 0 ∧
      cart.version = bytes.getD 0x14C 0 := by
  refine ⟨_, newCartridgeWithData_eq bytes hlen, ?_, fun k hk => title_getD bytes k hk,
    rfl, rfl, rfl, rfl⟩
  show ((bytes.drop 0x134).take 11).length = 11
  rw [List.length_take, List.length_drop]
  omega

set_option maxRecDepth 100000 in
/-- Witness for C12: the `0x150` byte fixture. -/
theorem header_fields_at_offsets_witness :
    0x150 ≤ checksumImage.length ∧
      ∃ cart, NewCartridgeWithData checksumImage = some cart ∧
        cart.title.length = 11 ∧
        (∀ k, k < 11 → cart.title.getD k 0 = checksumImage.getD (0x134 + k) 0) ∧
        cart.cartType = checksumImage.getD 0x147 0 ∧
        cart.romSize = checksumImage.getD 0x148 0 ∧
        cart.ramSize = checksumImage.getD 0x149 0 ∧
        cart.version = checksumImage.getD 0x14C 0 :=
  ⟨by decide, header_fields_at_offsets checksumImage (by decide)⟩

/-- C16: a cartridge write is a no-op: for every cartridge, every address
inside its data and every value, `Write` returns with the cartridge (data and
header fields) as it was, so `Read` of any address gives the same result after
the write as before. -/
theorem cartridge_write_noop (c : Cartridge) (addr value : Nat)
    (h16 : addr < 65536) (hin : addr < c.data.length) :
    (∃ r, c.Write addr value = some (c, r)) ∧
      ∀ a, (c.Write addr value).bind (fun p => p.1.Read a) = c.Read a := by
  have hm : addr % 65536 = addr := Nat.mod_eq_of_lt h16
  have hw : c.Write addr value = some (c, c.data[addr]) := by
    unfold Cartridge.Write
    rw [hm, List.getElem?_eq_getElem hin]
    rfl
  refine ⟨⟨_, hw⟩, fun a => ?_⟩
  rw [hw]
  rfl

/-- Witness for C16: writing `0xAB` at address 2 of a four byte cartridge. -/
theorem cartridge_write_noop_witness :
    (∃ r, ({ NewCartridge with data := [1, 2, 3, 4] } : Cartridge).Write 2 0xAB =
        some ({ NewCartridge with data := [1, 2, 3, 4] }, r)) ∧
      ∀ a, (({ NewCartridge with data := [1, 2, 3, 4] } : Cartridge).Write 2 0xAB).bind
        (fun p => p.1.Read a) = ({ NewCartridge with data := [1, 2, 3, 4] } : Cartridge).Read a :=
  cartridge_write_noop { NewCartridge with data := [1, 2, 3, 4] } 2 0xAB (by decide) (by decide)

/-- C17: loading copies the input buffer verbatim: for every image of at least
`0x150` bytes and every address smaller than the image length, `Read` on the
loaded cartridge returns the image byte at that address, and the data of the
cartridge has exactly the length of the image. -/
theorem load_copies_buffer (bytes : List Nat) (addr : Nat) (hlen : 0x150 ≤ bytes.length)
    (h16 : addr < 65536) (hin : addr < bytes.length) :
    ∃ cart, NewCartridgeWithData bytes = some cart ∧
      cart.Read addr = some (bytes.getD addr 0) ∧
      cart.data.length = bytes.length ∧
      cart.data = bytes := by
  refine ⟨_, newCartridgeWithData_eq bytes hlen, ?_, rfl, rfl⟩
  show bytes[addr % 65536]? = some (bytes.getD addr 0)
  rw [Nat.mod_eq_of_lt h16]
  exact getElem?_eq_getD bytes addr hin

set_option maxRecDepth 100000 in
/-- Witness for C17: the `0x150` byte fixture read at `0x14E`. -/
theorem load_copies_buffer_witness :
    0x150 ≤ checksumImage.length ∧
      ∃ cart, NewCartridgeWithData checksumImage = some cart ∧
        cart.Read 0x14E = some (checksumImage.getD 0x14E 0) ∧
        cart.data.length = checksumImage.length ∧
        cart.data = checksumImage :=
  ⟨by decide, load_copies_buffer checksumImage 0x14E (by decide) (by decide) (by decide)⟩


/-! ### Byte composition and immediates -/

/-- C13: `High` and `Low` are the inverse of `CombineBytes`: for all bytes
`low`, `high`, the high byte (bits 8–15) of `CombineBytes low high` is `high`
and its low byte (bits 0–7) is `low`; and for every 16 bit value `v`,
`CombineBytes (Low v) (High v) = v`. -/
theorem high_low_inverse_of_combine (low high v : Nat)
    (hl : low < 256) (hh : high < 256) (hv : v < 65536) :
    Bit.High (Bit.CombineBytes low high) = high ∧
      Bit.Low (Bit.CombineBytes low high) = low ∧
      Bit.CombineBytes (Bit.Low v) (Bit.High v) = v := by
  have hc := combineBytes_eq low high hl hh
  have hlt : Bit.CombineBytes low high < 65536 := by omega
  have hH : Bit.High v < 256 := by rw [high_eq v hv]; omega
  have hL : Bit.Low v < 256 := by rw [low_eq v hv]; omega
  refine ⟨?_, ?_, ?_⟩
  · rw [high_eq _ hlt, hc]; omega
  · rw [low_eq _ hlt, hc]; omega
  · rw [combineBytes_eq _ _ hL hH, high_eq v hv, low_eq v hv]; omega

/-- Witness for C13 at `low = 0x34`, `high = 0x12`, `v = 0xBEEF`. -/
theorem high_low_inverse_of_combine_witness :
    Bit.High (Bit.CombineBytes 0x34 0x12) = 0x12 ∧
      Bit.Low (Bit.CombineBytes 0x34 0x12) = 0x34 ∧
      Bit.CombineBytes (Bit.Low 0xBEEF) (Bit.High 0xBEEF) = 0xBEEF :=
  high_low_inverse_of_combine 0x34 0x12 0xBEEF (by decide) (by decide) (by decide)

/-- C14: for every CPU state and memory, each advancing read returns the value
of its peek form at the same program counter and leaves the state changed in
the program counter only, advanced modulo `2^16` by 1 (`readImmediate`,
`readSignedImmediate`) or by 2 (`readImmediateWord`). -/
theorem read_agrees_with_peek (cpu : CPU) :
    (cpu.readImmediate.1 = cpu.peekImmediate ∧
        cpu.readImmediate.2 = { cpu with pc := (cpu.pc + 1) % 65536 }) ∧
      (cpu.readSignedImmediate.1 = cpu.peekSignedImmediate ∧
        cpu.readSignedImmediate.2 = { cpu with pc := (cpu.pc + 1) % 65536 }) ∧
      (cpu.readImmediateWord.1 = cpu.peekImmediateWord ∧
        cpu.readImmediateWord.2 = { cpu with pc := (cpu.pc + 2) % 65536 }) :=
  ⟨⟨rfl, rfl⟩, ⟨rfl, rfl⟩, ⟨rfl, rfl⟩⟩

/-- C15: the 16 bit immediate is little-endian and the signed immediate is
two's complement: `peekImmediateWord` is `mem[pc] + 256 * mem[(pc+1) mod 2^16]`,
and `peekSignedImmediate` is `mem[pc]` when `mem[pc] < 128` and `mem[pc] - 256`
otherwise. -/
theorem immediates_spec (cpu : CPU) :
    cpu.peekImmediateWord =
        cpu.memory.Read cpu.pc + 256 * cpu.memory.Read ((cpu.pc + 1) % 65536) ∧
      cpu.peekSignedImmediate =
        (if cpu.memory.Read cpu.pc < 128 then (cpu.memory.Read cpu.pc : Int)
          else (cpu.memory.Read cpu.pc : Int) - 256) := by
  constructor
  · show Bit.CombineBytes _ _ = _
    rw [combineBytes_eq _ _ (read_lt _ _) (read_lt _ _)]
    omega
  · show CPU.toInt8 (cpu.memory.Read cpu.pc) = _
    unfold CPU.toInt8
    rw [Nat.mod_eq_of_lt (read_lt cpu.memory cpu.pc)]

/-- C18: for every index (those in `[0,7]` included) and every 8 bit value,
`IsBitSet index value` is true exactly when bit `index` of the value is 1, that
is when `value / 2^index` is odd. -/
theorem isBitSet_iff_odd (index value : Nat) (hv : value < 256) :
    Bit.IsBitSet index value = true ↔ value / 2 ^ index % 2 = 1 := by
  rw [isBitSet_eq_testBit, Nat.mod_eq_of_lt hv, Nat.testBit_to_div_mod]
  exact decide_eq_true_iff

/-- Witness for C18 at `index = 4`, `value = 0x10`: bit 4 is set. -/
theorem isBitSet_iff_odd_witness :
    0x10 < 256 ∧ (Bit.IsBitSet 4 0x10 = true ↔ 0x10 / 2 ^ 4 % 2 = 1) :=
  ⟨by decide, isBitSet_iff_odd 4 0x10 (by decide)⟩

/-! ### Flags and repeated interrupt checks -/

/-- C19, evaluated on the zero CPU with F set to `0x00` and to `0xF0`:
`setFlagToCondition(zeroFlag, true)` ANDs the flag into F.  From `F = 0x00` the
Zero flag stays clear (`isSetFlag` is false and `flagToBit` is 0 although the
condition is true); from `F = 0xF0` the result is `0x80`, the other three flags
cleared. -/
theorem setFlagToCondition_true_does_not_set :
    (({ CPU.New blankMemory with f := 0x00 } : CPU).setFlagToCondition zeroFlag true).isSetFlag
        zeroFlag = false ∧
      (({ CPU.New blankMemory with f := 0x00 } : CPU).setFlagToCondition zeroFlag true).flagToBit
        zeroFlag = 0 ∧
      (({ CPU.New blankMemory with f := 0xF0 } : CPU).setFlagToCondition zeroFlag true).f =
        0x80 := by
  decide

/-- Auxiliary: the scan loop either leaves the state as it is or leaves
interrupts disabled. -/
theorem handleInterruptsLoop_cases (cpu : CPU) (fired : Nat) :
    ∀ n k : Nat, CPU.handleInterruptsLoop cpu fired n k = cpu ∨
      (CPU.handleInterruptsLoop cpu fired n k).interruptsEnabled = false := by
  intro n
  induction n with
  | zero => intro k; exact Or.inl rfl
  | succ n ih =>
    intro k
    by_cases hk : Bit.IsSet k fired = true
    · right
      simp only [CPU.handleInterruptsLoop, hk, if_true]
      rfl
    · simp only [CPU.handleInterruptsLoop, hk, if_false]
      exact ih (k + 1)

/-- Auxiliary: the interrupt check either leaves the state as it is or leaves
interrupts disabled. -/
theorem handleInterrupts_cases (cpu : CPU) :
    cpu.handleInterrupts = cpu ∨ cpu.handleInterrupts.interruptsEnabled = false := by
  unfold CPU.handleInterrupts
  by_cases hIME : cpu.interruptsEnabled = false
  · left; simp only [hIME, if_true]
  · by_cases hand : (cpu.memory.Read Addr.IE &&& cpu.memory.Read Addr.IF) = 0
    · left; simp only [hIME, if_false, hand, if_true, Bool.true_eq_false, ite_self]
    · simp only [hIME, if_false, hand]
      exact handleInterruptsLoop_cases cpu _ 5 0

/-- C20: at most one interrupt is serviced until interrupts are re-enabled:
for every CPU state and memory, running `handleInterrupts` twice in succession
gives the same CPU state and memory as running it once. -/
theorem handleInterrupts_idempotent (cpu : CPU) :
    cpu.handleInterrupts.handleInterrupts = cpu.handleInterrupts := by
  rcases handleInterrupts_cases cpu with h | h
  · rw [h, h]
  · generalize cpu.handleInterrupts = c at h
    unfold CPU.handleInterrupts
    simp only [h, if_true]

end Jeebie
